import Mathlib

/-!
# Verification of the file-read microbenchmark harness

Shallow embedding of the core read-iteration engine of the repository
(three evolving variants: the plain `ifstream` benchmark and the chunked
`O_DIRECT` benchmark in `src/unnamed/part_000`, and the whole-file and
chunked `O_DIRECT` benchmarks in `src/main.cpp`), together with proofs of
the testable properties stated in the specification.

Conventions of the embedding:
* byte counts and sizes are `Nat`; results of the `read`/`pread` syscalls
  are `Int` (a negative value models a failed syscall);
* the filesystem is modelled by the actual size of the file being read:
  a positioned read of `cnt` bytes at offset `off` in a file of `sz` bytes
  returns `min cnt (sz - off)` bytes;
* fallible paths return `Except`; process abort (`return 1`) is `.error`;
* the random source of `std::shuffle` / `std::mt19937` is an explicit
  oracle function supplying the index drawn at each step.
-/

namespace FileGames

/-! ## Alignment arithmetic

`src/main.cpp` (both variants): `const int BLOCK_SIZE = 512;
int aligned_K = ((K + BLOCK_SIZE - 1) / BLOCK_SIZE) * BLOCK_SIZE;`.

`src/unnamed/part_000` (second variant): `const size_t ALIGNMENT = 4096;
long long aligned_K = K;` under the source comment "Assume K is already
aligned to 4096 bytes". -/

def BLOCK_SIZE : Nat := 512

/-- The quantity `aligned_K` as computed by `src/main.cpp`:
`((K + BLOCK_SIZE - 1) / BLOCK_SIZE) * BLOCK_SIZE`. -/
def aligned_K (K : Nat) : Nat := ((K + BLOCK_SIZE - 1) / BLOCK_SIZE) * BLOCK_SIZE

def ALIGNMENT : Nat := 4096

/-- The quantity `aligned_K` as computed by the second variant of `src/unnamed/part_000`:
the size is taken as-is (`long long aligned_K = K;`), the source assuming
`K` is already a multiple of `ALIGNMENT`. -/
def aligned_K_assumed (K : Nat) : Nat := K

/-! ## File permutation

`src/unnamed/part_000` (second variant), before the iteration loop:
fill `file_permutation` with `1..N` and `std::shuffle` it.  `std::shuffle`
is the classic downward Fisher-Yates loop
`for (i = n-1; i > 0; --i) swap(v[i], v[j])` with `j` drawn uniformly
from `[0, i]`; the draw is modelled by an oracle `randJ`, reduced
modulo `i+1` so that it always lands in `[0, i]`. -/

/-- Swap the entries at positions `i` and `j` of a list (identity when
either index is out of range), as `std::swap(v[i], v[j])`. -/
def listSwap (l : List Nat) (i j : Nat) : List Nat :=
  match l[i]?, l[j]? with
  | some x, some y => (l.set i y).set j x
  | _, _ => l

/-- The Fisher-Yates loop of `std::shuffle`, counting the running index
down: `shuffleLoop randJ i l` performs the swaps for indices `i, i-1, …, 1`. -/
def shuffleLoop (randJ : Nat → Nat) : Nat → List Nat → List Nat
  | 0, l => l
  | i + 1, l => shuffleLoop randJ i (listSwap l (i + 1) (randJ (i + 1) % (i + 2)))

/-- The effect of `std::shuffle` on a whole list. -/
def stdShuffle (randJ : Nat → Nat) (l : List Nat) : List Nat :=
  shuffleLoop randJ (l.length - 1) l

/-- The vector `file_permutation` before shuffling:
`file_permutation[i - 1] = i` for `i = 1..N`. -/
def filePermutationInit (N : Nat) : List Nat :=
  (List.range N).map (· + 1)

/-- The shuffled `file_permutation` used by the iteration loop. -/
def filePermutation (randJ : Nat → Nat) (N : Nat) : List Nat :=
  stdShuffle randJ (filePermutationInit N)

/-! ## Sequential chunked read

`src/unnamed/part_000` (second variant), lines 361-382:

```
size_t file_remaining = aligned_K;
while (file_remaining > 0) {
  size_t to_read = (file_remaining < CHUNK_SIZE) ? file_remaining : CHUNK_SIZE;
  ssize_t bytes_read = read(fd, read_buffer, to_read);
  if (bytes_read < 0) { close(fd); free(read_buffer); return 1; }
  if (bytes_read == 0) break;  // EOF
  file_total_read += bytes_read;
  file_remaining -= bytes_read;
}
```

Deterministic filesystem model: a `read` of `cnt` bytes when the implicit
cursor is at `cur` in a file of `fileSize` bytes returns
`min cnt (fileSize - cur)`. -/

/-- The sequential read loop under the deterministic filesystem model.
Arguments after `C` (chunk size) and `fileSize`: remaining bytes requested,
current file cursor, accumulated bytes, number of `read` calls issued so
far.  Returns (total bytes read, number of `read` calls). -/
def seqReadLoop (C fileSize : Nat) : Nat → Nat → Nat → Nat → Nat × Nat
  | 0, _, acc, reads => (acc, reads)
  | r + 1, cur, acc, reads =>
    -- `to_read = min remaining C`; the syscall returns
    -- `min to_read (fileSize - cur)` under the deterministic model
    if min (min (r + 1) C) (fileSize - cur) = 0 then (acc, reads + 1)
    else seqReadLoop C fileSize (r + 1 - min (min (r + 1) C) (fileSize - cur))
        (cur + min (min (r + 1) C) (fileSize - cur))
        (acc + min (min (r + 1) C) (fileSize - cur)) (reads + 1)
  termination_by r _ _ _ => r
  decreasing_by omega

/-- Reading all content in sequential mode: request `S` bytes in chunks of `C` from a
file of `fileSize` bytes, starting at cursor 0. -/
def seqRead (S C fileSize : Nat) : Nat × Nat :=
  seqReadLoop C fileSize S 0 0 0

/-! ## Sequential read at the syscall level (resource tracking)

Same loop, but the result of each `read` syscall is supplied by an oracle
`readFn callIdx toRead : Int` so that failing (negative) results are
representable, and the descriptor / buffer state is threaded explicitly to
model `close(fd)` and `free(read_buffer)` on the error path.  This covers
both chunked sequential loops in the repository (`src/unnamed/part_000`
lines 361-382 and `src/main.cpp` second variant lines 282-302; the latter
is the instance `C ≥` remaining, i.e. `to_read = remaining`). -/

structure Resources where
  fdOpen : Bool
  bufAllocated : Bool
deriving DecidableEq, Repr

/-- Effect of `close(fd)`. -/
def closeFd (s : Resources) : Resources := { s with fdOpen := false }

/-- Effect of `free(read_buffer)`. -/
def freeBuf (s : Resources) : Resources := { s with bufAllocated := false }

inductive SeqSysResult where
  /-- Loop finished normally: bytes read, next call index, resources. -/
  | done (bytes : Nat) (nextCall : Nat) (res : Resources)
  /-- A `read` call returned a negative value: the code closes the descriptor,
  frees the buffer and returns 1 (aborting the run). -/
  | fatal (res : Resources)
deriving DecidableEq, Repr

/-- The sequential read loop with oracle-supplied syscall results. -/
def seqLoopSys (readFn : Nat → Nat → Int) (C : Nat) :
    Nat → Nat → Nat → Resources → SeqSysResult
  | 0, idx, acc, s => .done acc idx s
  | r + 1, idx, acc, s =>
    if _hneg : readFn idx (min (r + 1) C) < 0 then .fatal (freeBuf (closeFd s))
    else if _hz : (readFn idx (min (r + 1) C)).toNat = 0 then .done acc (idx + 1) s
    else seqLoopSys readFn C (r + 1 - (readFn idx (min (r + 1) C)).toNat) (idx + 1)
        (acc + (readFn idx (min (r + 1) C)).toNat) s
  termination_by r _ _ _ => r
  decreasing_by omega

/-! ## Parallel chunked read

`src/unnamed/part_000` (second variant), lines 317-360: spawn
`aligned_K / CHUNK_SIZE` threads; thread `chunk_idx` allocates its own
aligned buffer (`posix_memalign`; failure sets the shared error flag and
returns), then `pread`s `CHUNK_SIZE` bytes at offset
`chunk_idx * CHUNK_SIZE`; any result different from `CHUNK_SIZE` sets the
error flag, otherwise the result is added to the atomic total.  After
joining all threads, a set error flag aborts the run
(`close(fd); free(read_buffer); return 1;`), else the total is returned.

The per-chunk buffer allocation outcome and the `pread` results are
oracles (`alloc`, `preadFn`); the deterministic filesystem model for a
positioned read is `preadModel`. -/

/-- Body of one chunk thread: returns (error flag contribution, bytes
contributed to the atomic total). -/
def chunkTask (allocOk : Bool) (preadRes : Int) (C : Nat) : Bool × Nat :=
  if allocOk = false then (true, 0)
  else if preadRes ≠ (C : Int) then (true, 0)
  else (false, C)

/-- The byte offsets at which the parallel path issues positioned reads:
`chunk_idx * CHUNK_SIZE` for `chunk_idx < aligned_K / CHUNK_SIZE`. -/
def parallelOffsets (S C : Nat) : List Nat :=
  (List.range (S / C)).map (· * C)

/-- Reading all content in parallel mode over oracles: `.error ()` models the abort
after join when any chunk task failed, `.ok total` the joined success. -/
def parallelReadAll (alloc : Nat → Bool) (preadFn : Nat → Nat → Int) (S C : Nat) :
    Except Unit Nat :=
  let tasks := (List.range (S / C)).map
    (fun idx => chunkTask (alloc idx) (preadFn (idx * C) C) C)
  if tasks.any Prod.fst then .error () else .ok (tasks.map Prod.snd).sum

/-- Deterministic model of `pread(fd, buf, cnt, off)` on a file of
`fileSize` bytes. -/
def preadModel (fileSize off cnt : Nat) : Int := (min cnt (fileSize - off) : Nat)

/-! ## Opening with direct-I/O fallback

`src/unnamed/part_000` lines 297-311 and `src/main.cpp` second variant
lines 266-280:

```
int fd = open(filename.c_str(), O_RDONLY | O_DIRECT);
if (fd == -1) {
  // error message with errno
  fd = open(filename.c_str(), O_RDONLY);
  if (fd == -1) { free(read_buffer); return 1; }
  // "Warning: O_DIRECT not supported, reading without it"
}
```
-/

inductive OpenResult where
  /-- The `O_DIRECT` open succeeded; no warning. -/
  | direct
  /-- The `O_DIRECT` open failed but the plain buffered open succeeded:
  the warning is printed and the run continues. -/
  | fallback
  /-- Both opens failed: the buffer is freed and the run aborts. -/
  | fatal
deriving DecidableEq, Repr

/-- The open-with-fallback logic, as a function of whether each of the two
`open` calls would succeed. -/
def openFile (directOk bufferedOk : Bool) : OpenResult :=
  if directOk then .direct
  else if bufferedOk then .fallback
  else .fatal

/-- The open logic of the first `src/main.cpp` variant, lines 110-116:

```
int fd = open(filename.c_str(), O_RDONLY | O_DIRECT);
if (fd == -1) {
  std::cerr << "Error opening file: " << filename << std::endl;
  free(read_buffer);
  return 1;
}
```

Only the `O_DIRECT` open is ever attempted there: a rejection frees the
buffer and aborts the run at once.  The second argument - whether a plain
buffered open would have succeeded - is deliberately an input the code
never consults, so the outcome is `.fatal` whenever the direct open is
rejected, whatever the buffered open would have done. -/
def openFileV1 (directOk _bufferedOk : Bool) : OpenResult :=
  if directOk then .direct else .fatal

/-! ## Iteration engine

`src/unnamed/part_000` (second variant), lines 292-398: for each of the
`ITER` iterations select `file_permutation[i % N]`, open the file with the
direct-I/O fallback logic, read (skip / parallel / sequential), accumulate
the bytes, close the file. -/

structure Config where
  N : Nat
  ITER : Nat
  alignedK : Nat
  chunkSize : Nat
  skipRead : Bool
  parallelRead : Bool
deriving DecidableEq, Repr

/-- The external world of one run: whether the `O_DIRECT` open of
iteration `i` succeeds, whether the fallback buffered open succeeds, and
the actual on-disk size of file `f`. -/
structure Env where
  directOk : Nat → Bool
  bufferedOk : Nat → Bool
  fileSize : Nat → Nat

inductive RunError where
  /-- The expression `i % N` was evaluated with `N = 0`: integer modulo by zero is
  undefined behavior in the source, modelled as a crash outcome. -/
  | modByZero
  /-- Both the direct and the buffered open failed: `return 1`. -/
  | openFatal
  /-- The parallel error flag was set after the join: `return 1`. -/
  | shortRead
deriving DecidableEq, Repr

structure IterResult where
  fileNum : Nat
  usedFallback : Bool
  bytes : Nat
deriving DecidableEq, Repr

/-- The read phase of one iteration (after a successful open), under the
deterministic filesystem model (buffer allocations succeed; reads return
what the file holds).  `fb` records whether the open fell back to
buffered I/O (i.e. whether the warning was printed). -/
def engineIterRead (cfg : Config) (env : Env) (fileNum : Nat) (fb : Bool) :
    Except RunError IterResult :=
  if cfg.skipRead then .ok ⟨fileNum, fb, 0⟩
  else if cfg.parallelRead then
    match parallelReadAll (fun _ => true)
        (fun off cnt => preadModel (env.fileSize fileNum) off cnt)
        cfg.alignedK cfg.chunkSize with
    | .error _ => .error .shortRead
    | .ok b => .ok ⟨fileNum, fb, b⟩
  else .ok ⟨fileNum, fb, (seqRead cfg.alignedK cfg.chunkSize (env.fileSize fileNum)).1⟩

/-- One iteration of the engine: select `file_permutation[i % N]`, open
with fallback, read, close.  A returned `.ok` result stands for exactly
one `open`, one `readAll` and one unconditional `close`. -/
def engineIter (cfg : Config) (env : Env) (perm : List Nat) (i : Nat) :
    Except RunError IterResult :=
  if cfg.N = 0 then .error .modByZero
  else
    let fileNum := perm.getD (i % cfg.N) 0
    match openFile (env.directOk i) (env.bufferedOk i) with
    | .fatal => .error .openFatal
    | .direct => engineIterRead cfg env fileNum false
    | .fallback => engineIterRead cfg env fileNum true

/-- Run iterations `i, i+1, …, i+k-1`; the first fatal error aborts. -/
def engineRunFrom (cfg : Config) (env : Env) (perm : List Nat) :
    Nat → Nat → Except RunError (List IterResult)
  | _, 0 => .ok []
  | i, k + 1 =>
    match engineIter cfg env perm i with
    | .error e => .error e
    | .ok r =>
      match engineRunFrom cfg env perm (i + 1) k with
      | .error e => .error e
      | .ok rs => .ok (r :: rs)

/-- The whole iteration loop (`for (int i = 0; i < ITER; i++)`). -/
def engineRun (cfg : Config) (env : Env) (perm : List Nat) :
    Except RunError (List IterResult) :=
  engineRunFrom cfg env perm 0 cfg.ITER

/-- The counter `total_bytes_read` at the end of a completed run. -/
def totalBytesRead (rs : List IterResult) : Nat :=
  (rs.map IterResult.bytes).sum

/-- The files visited, in iteration order. -/
def filesVisited (rs : List IterResult) : List Nat :=
  rs.map IterResult.fileNum

/-! ## The first `src/main.cpp` variant's iteration loop

Lines 104-131: open with `O_DIRECT` (no fallback; on failure free the
buffer and `return 1`), a single whole-file `read`, then
`if (bytes_read > 0) { total_bytes_read += bytes_read; }` - a negative
`read` result is neither reported nor fatal there. -/

/-- The byte accounting of one iteration of the first `main.cpp` variant. -/
def readAccumV1 (ret : Int) (total : Int) : Int :=
  if ret > 0 then total + ret else total

/-- Running `ITER` iterations of the first `main.cpp` variant; `readFn i` is the
result of the single `read` syscall of iteration `i`, `openOk i` whether
its `open` succeeds. -/
def engineRunV1 (openOk : Nat → Bool) (readFn : Nat → Int) : Nat → Except Unit Int
  | 0 => .ok 0
  | k + 1 =>
    match engineRunV1 openOk readFn k with
    | .error e => .error e
    | .ok total => if openOk k then .ok (readAccumV1 (readFn k) total) else .error ()

/-! ## Average-time report -/

/-- Model of the report line
`duration_read_ms.count() / (double)ITER` (present in all variants):
the IEEE quotient is the finite rational `durationMs / ITER` when
`ITER ≠ 0`, and a non-finite value (`inf` or NaN, modelled as `none`)
when `ITER = 0`.  The source performs this division unconditionally. -/
def avgMsPerIter (durationMs ITER : Nat) : Option ℚ :=
  if ITER = 0 then none else some ((durationMs : ℚ) / (ITER : ℚ))

/-! # Supporting lemmas -/

/-! ### The shuffle permutes -/

theorem cons_set_perm (t : List Nat) (m a y : Nat) (h : t[m]? = some y) :
    List.Perm (y :: t.set m a) (a :: t) := by
  induction t generalizing m with
  | nil => simp at h
  | cons b t' ih =>
    cases m with
    | zero =>
      simp only [List.getElem?_cons_zero, Option.some.injEq] at h
      subst h
      exact List.Perm.swap a b t'
    | succ k =>
      simp only [List.getElem?_cons_succ] at h
      have h1 : List.Perm (y :: b :: t'.set k a) (b :: y :: t'.set k a) :=
        List.Perm.swap b y _
      have h2 : List.Perm (b :: y :: t'.set k a) (b :: (a :: t')) :=
        List.Perm.cons b (ih k h)
      have h3 : List.Perm (b :: a :: t') (a :: b :: t') := List.Perm.swap a b t'
      simpa using h1.trans (h2.trans h3)

theorem set_set_perm (l : List Nat) (i j x y : Nat)
    (hi : l[i]? = some x) (hj : l[j]? = some y) :
    List.Perm ((l.set i y).set j x) l := by
  induction l generalizing i j with
  | nil => simp at hi
  | cons a t ih =>
    cases i with
    | zero =>
      simp only [List.getElem?_cons_zero, Option.some.injEq] at hi
      subst hi
      cases j with
      | zero =>
        simp only [List.getElem?_cons_zero, Option.some.injEq] at hj
        subst hj
        simp
      | succ k =>
        simp only [List.getElem?_cons_succ] at hj
        simpa using cons_set_perm t k a y hj
    | succ m =>
      simp only [List.getElem?_cons_succ] at hi
      cases j with
      | zero =>
        simp only [List.getElem?_cons_zero, Option.some.injEq] at hj
        subst hj
        simpa using cons_set_perm t m a x hi
      | succ k =>
        simp only [List.getElem?_cons_succ] at hj
        simpa using List.Perm.cons a (ih m k hi hj)

theorem listSwap_perm (l : List Nat) (i j : Nat) :
    List.Perm (listSwap l i j) l := by
  unfold listSwap
  split
  · next x y hi hj => exact set_set_perm l i j x y hi hj
  · exact List.Perm.refl l

theorem shuffleLoop_perm (randJ : Nat → Nat) (i : Nat) (l : List Nat) :
    List.Perm (shuffleLoop randJ i l) l := by
  induction i generalizing l with
  | zero => exact List.Perm.refl l
  | succ k ih =>
    exact (ih _).trans (listSwap_perm l (k + 1) (randJ (k + 1) % (k + 2)))

theorem stdShuffle_perm (randJ : Nat → Nat) (l : List Nat) :
    List.Perm (stdShuffle randJ l) l :=
  shuffleLoop_perm randJ (l.length - 1) l

theorem filePermutation_perm_init (randJ : Nat → Nat) (N : Nat) :
    List.Perm (filePermutation randJ N) (filePermutationInit N) :=
  stdShuffle_perm randJ (filePermutationInit N)

theorem filePermutationInit_nodup (N : Nat) : (filePermutationInit N).Nodup := by
  have hinj : Function.Injective (· + 1 : Nat → Nat) := by
    intro a b h
    simpa using h
  exact List.Nodup.map hinj (List.nodup_range N)

theorem filePermutationInit_mem (N x : Nat) :
    x ∈ filePermutationInit N ↔ 1 ≤ x ∧ x ≤ N := by
  unfold filePermutationInit
  simp only [List.mem_map, List.mem_range]
  constructor
  · rintro ⟨k, hk, rfl⟩
    omega
  · rintro ⟨h1, h2⟩
    exact ⟨x - 1, by omega, by omega⟩

theorem filePermutationInit_count (N x : Nat) :
    (filePermutationInit N).count x = if 1 ≤ x ∧ x ≤ N then 1 else 0 := by
  rw [List.count_eq_of_nodup (filePermutationInit_nodup N)]
  by_cases h : x ∈ filePermutationInit N
  · rw [if_pos h, if_pos ((filePermutationInit_mem N x).mp h)]
  · rw [if_neg h, if_neg (fun hc => h ((filePermutationInit_mem N x).mpr hc))]

/-! ### The sequential read loop -/

/-- Bytes returned by the sequential loop: the accumulator plus what the
file still holds, capped at the remaining request. -/
theorem seqReadLoop_bytes (C fs : Nat) (hC : 0 < C) :
    ∀ r cur acc rd, (seqReadLoop C fs r cur acc rd).1 = acc + min r (fs - cur) := by
  intro r
  induction r using Nat.strong_induction_on with
  | _ r ih =>
    match r with
    | 0 =>
      intro cur acc rd
      simp [seqReadLoop]
    | n + 1 =>
      intro cur acc rd
      rw [seqReadLoop]
      by_cases h0 : min (min (n + 1) C) (fs - cur) = 0
      · rw [if_pos h0]
        omega
      · rw [if_neg h0]
        rw [ih (n + 1 - min (min (n + 1) C) (fs - cur)) (by omega)]
        omega

/-- Number of `read` calls issued by the sequential loop when the file
holds at least the requested bytes (no early end-of-file):
`⌈remaining / C⌉` more than already issued. -/
theorem seqReadLoop_count (C fs : Nat) (hC : 0 < C) :
    ∀ r cur acc rd, cur + r ≤ fs →
      (seqReadLoop C fs r cur acc rd).2 = rd + (r + C - 1) / C := by
  intro r
  induction r using Nat.strong_induction_on with
  | _ r ih =>
    match r with
    | 0 =>
      intro cur acc rd _
      have e : (0 + C - 1) / C = 0 := Nat.div_eq_of_lt (by omega)
      simp only [seqReadLoop, e, Nat.add_zero]
    | n + 1 =>
      intro cur acc rd hle
      have hb : min (min (n + 1) C) (fs - cur) = min (n + 1) C := by omega
      rw [seqReadLoop, hb, if_neg (by omega)]
      rw [ih (n + 1 - min (n + 1) C) (by omega) _ _ _ (by omega)]
      by_cases hcase : n + 1 ≤ C
      · have e1 : n + 1 - min (n + 1) C = 0 := by omega
        have e2 : (0 + C - 1) / C = 0 := Nat.div_eq_of_lt (by omega)
        have e3 : (n + 1) + C - 1 = n + C := by omega
        have e4 : (n + C) / C = n / C + 1 := Nat.add_div_right n hC
        have e5 : n / C = 0 := Nat.div_eq_of_lt (by omega)
        rw [e1, e2, e3, e4, e5]
      · have hm : min (n + 1) C = C := by omega
        have e1 : (n + 1 - C) + C - 1 = n := by omega
        have e3 : (n + 1) + C - 1 = n + C := by omega
        have e4 : (n + C) / C = n / C + 1 := Nat.add_div_right n hC
        rw [hm, e1, e3, e4]
        generalize n / C = q
        omega

theorem seqRead_bytes (S C fs : Nat) (hC : 0 < C) :
    (seqRead S C fs).1 = min S fs := by
  rw [seqRead, seqReadLoop_bytes C fs hC]
  omega

theorem seqRead_count (S C fs : Nat) (hC : 0 < C) (hfs : S ≤ fs) :
    (seqRead S C fs).2 = (S + C - 1) / C := by
  rw [seqRead, seqReadLoop_count C fs hC S 0 0 0 (by omega), Nat.zero_add]

/-! ### The parallel read path -/

/-- Every issued chunk lies entirely inside the first `S` bytes. -/
theorem chunk_le (S C idx : Nat) (hidx : idx < S / C) : idx * C + C ≤ S := by
  have h1 : idx + 1 ≤ S / C := hidx
  have h2 := Nat.mul_le_mul_right C h1
  rw [Nat.succ_mul] at h2
  exact le_trans h2 (Nat.div_mul_le_self S C)

/-- Under the deterministic filesystem model (allocations succeed, the
file holds `S` bytes) every chunk `pread` is full, so the parallel read
succeeds and totals `(S / C) * C` bytes. -/
theorem parallelReadAll_model_ok (S C : Nat) :
    parallelReadAll (fun _ => true) (preadModel S) S C = .ok ((S / C) * C) := by
  unfold parallelReadAll
  have htask : ∀ idx ∈ List.range (S / C),
      chunkTask true (preadModel S (idx * C) C) C = (false, C) := by
    intro idx hidx
    have hle := chunk_le S C idx (List.mem_range.mp hidx)
    have hmin : min C (S - idx * C) = C := by omega
    simp [chunkTask, preadModel, hmin]
  rw [List.map_congr_left htask]
  simp [List.any_map, List.map_map, Function.comp, List.sum_replicate]

/-- If any single chunk task fails - its buffer allocation fails or its
`pread` returns anything other than the full chunk - the whole parallel
read aborts. -/
theorem parallelReadAll_error (alloc : Nat → Bool) (preadFn : Nat → Nat → Int)
    (S C idx : Nat) (hidx : idx < S / C)
    (hbad : alloc idx = false ∨ preadFn (idx * C) C ≠ (C : Int)) :
    parallelReadAll alloc preadFn S C = .error () := by
  unfold parallelReadAll
  have hfst : (chunkTask (alloc idx) (preadFn (idx * C) C) C).fst = true := by
    rcases hbad with h | h
    · simp [chunkTask, h]
    · by_cases ha : alloc idx = false
      · simp [chunkTask, ha]
      · simp [chunkTask, ha, h]
  rw [if_pos (List.any_eq_true.mpr ⟨_, List.mem_map.mpr
    ⟨idx, List.mem_range.mpr hidx, rfl⟩, hfst⟩)]

/-! ### The engine's open phase -/

/-- The read phase never reports an open failure. -/
theorem engineIterRead_ne_openFatal (cfg : Config) (env : Env) (fileNum : Nat) (fb : Bool) :
    engineIterRead cfg env fileNum fb ≠ .error .openFatal := by
  unfold engineIterRead
  split
  · simp
  · split
    · split <;> simp
    · simp

/-- With the parallel path off, the read phase always succeeds and
reports the fallback flag it was given. -/
theorem engineIterRead_seq_ok (cfg : Config) (env : Env) (fileNum : Nat) (fb : Bool)
    (hpar : cfg.parallelRead = false) :
    ∃ r, engineIterRead cfg env fileNum fb = .ok r ∧ r.usedFallback = fb := by
  unfold engineIterRead
  by_cases hs : cfg.skipRead
  · rw [if_pos hs]
    exact ⟨_, rfl, rfl⟩
  · rw [if_neg hs, if_neg (by simp [hpar])]
    exact ⟨_, rfl, rfl⟩

/-! # Claim theorems -/

/-- C6: for every valid file size `K`, the computed aligned size equals
`ceil(K / alignment) * alignment`, hence is at least `K` and divisible by
the alignment unit.  `ceil(K / a) * a` is characterised as the unique
multiple of `a` in `[K, K + a)`.  For `src/main.cpp` (alignment 512,
rounding computed) this holds for every `K`; for the second variant of
`src/unnamed/part_000` (alignment 4096, `aligned_K = K` as-is) a valid
`K` is, per the source comment, one already aligned to 4096 bytes. -/
theorem alignedK_is_ceil (K : Nat) :
    (BLOCK_SIZE ∣ aligned_K K ∧ K ≤ aligned_K K ∧ aligned_K K < K + BLOCK_SIZE) ∧
    (ALIGNMENT ∣ K →
      ALIGNMENT ∣ aligned_K_assumed K ∧ K ≤ aligned_K_assumed K ∧
        aligned_K_assumed K < K + ALIGNMENT) := by
  unfold aligned_K aligned_K_assumed BLOCK_SIZE ALIGNMENT
  refine ⟨⟨dvd_mul_left 512 ((K + 512 - 1) / 512), by omega, by omega⟩,
    fun h => ⟨h, le_refl K, by omega⟩⟩

/-- Witness for C6 at `K = 8192`. -/
theorem alignedK_is_ceil_witness :
    ALIGNMENT ∣ 8192 ∧
    ((BLOCK_SIZE ∣ aligned_K 8192 ∧ 8192 ≤ aligned_K 8192 ∧
        aligned_K 8192 < 8192 + BLOCK_SIZE) ∧
      (ALIGNMENT ∣ aligned_K_assumed 8192 ∧ 8192 ≤ aligned_K_assumed 8192 ∧
        aligned_K_assumed 8192 < 8192 + ALIGNMENT)) :=
  ⟨by decide, (alignedK_is_ceil 8192).1, (alignedK_is_ceil 8192).2 (by decide)⟩

/-- C3: for every `N ≥ 1` (and any random draws), the shuffled file
permutation has length `N` and contains each index of `1..N` exactly once
(count 1 inside `1..N`, count 0 outside - so its set of elements is
exactly `{1..N}`). -/
theorem filePermutation_is_permutation (randJ : Nat → Nat) (N : Nat) (_hN : 1 ≤ N) :
    (filePermutation randJ N).length = N ∧
    ∀ x, (filePermutation randJ N).count x = if 1 ≤ x ∧ x ≤ N then 1 else 0 := by
  have hperm := filePermutation_perm_init randJ N
  constructor
  · rw [hperm.length_eq]
    unfold filePermutationInit
    simp
  · intro x
    rw [hperm.count_eq, filePermutationInit_count]

/-- Witness for C3 at `N = 3` with the constant draw oracle. -/
theorem filePermutation_is_permutation_witness :
    1 ≤ 3 ∧
    ((filePermutation (fun _ => 0) 3).length = 3 ∧
      ∀ x, (filePermutation (fun _ => 0) 3).count x = if 1 ≤ x ∧ x ≤ 3 then 1 else 0) :=
  ⟨by decide, filePermutation_is_permutation (fun _ => 0) 3 (by decide)⟩

/-- C2: sequential `readAll` of declared size `S` in chunks of `C > 0`
from a file actually holding `fs` bytes returns exactly `min S fs` bytes;
absent an early end-of-file (`S ≤ fs`) it issues exactly
`⌈S / C⌉ = (S + C - 1) / C` chunk reads; and every chunk read requests at
most `C` bytes (`to_read = min remaining C`). -/
theorem seqRead_spec (S C fs : Nat) (hC : 0 < C) :
    (seqRead S C fs).1 = min S fs ∧
    (S ≤ fs → (seqRead S C fs).2 = (S + C - 1) / C) ∧
    (∀ r, min r C ≤ C) :=
  ⟨seqRead_bytes S C fs hC, fun h => seqRead_count S C fs hC h,
    fun r => min_le_right r C⟩

/-- Witness for C2 at `S = 10`, `C = 4`, `fs = 10`. -/
theorem seqRead_spec_witness :
    0 < 4 ∧ 10 ≤ 10 ∧
    ((seqRead 10 4 10).1 = min 10 10 ∧ (seqRead 10 4 10).2 = (10 + 4 - 1) / 4) :=
  ⟨by decide, by decide,
    ⟨(seqRead_spec 10 4 10 (by decide)).1,
      (seqRead_spec 10 4 10 (by decide)).2.1 (by decide)⟩⟩

/-- C1: in parallel mode with `C ∣ S` (and `C > 0`), `readAll` issues
exactly `S / C` positioned reads, one at each offset of
`{0, C, 2C, …, (S/C - 1)·C}` (each chunk task consulting its own buffer
allocation); when every chunk read succeeds it returns `S` total bytes;
and if any one chunk task fails - its allocation fails or its `pread`
returns fewer than `C` bytes - the whole read returns the abort result
(no partial success). -/
theorem parallelRead_exact_spec (S C : Nat) (_hC : 0 < C) (hdvd : C ∣ S) :
    (parallelOffsets S C).length = S / C ∧
    (∀ o, o ∈ parallelOffsets S C ↔ ∃ k, k < S / C ∧ o = k * C) ∧
    parallelReadAll (fun _ => true) (preadModel S) S C = .ok S ∧
    (∀ (alloc : Nat → Bool) (preadFn : Nat → Nat → Int) (idx : Nat),
      idx < S / C → (alloc idx = false ∨ preadFn (idx * C) C < (C : Int)) →
      parallelReadAll alloc preadFn S C = .error ()) := by
  refine ⟨by simp [parallelOffsets], ?_, ?_, ?_⟩
  · intro o
    simp only [parallelOffsets, List.mem_map, List.mem_range]
    constructor
    · rintro ⟨k, hk, rfl⟩
      exact ⟨k, hk, rfl⟩
    · rintro ⟨k, hk, rfl⟩
      exact ⟨k, hk, rfl⟩
  · rw [parallelReadAll_model_ok, Nat.div_mul_cancel hdvd]
  · intro alloc preadFn idx hidx hbad
    refine parallelReadAll_error alloc preadFn S C idx hidx ?_
    rcases hbad with h | h
    · exact Or.inl h
    · exact Or.inr (ne_of_lt h)

/-- Witness for C1 at `S = 8`, `C = 4`. -/
theorem parallelRead_exact_spec_witness :
    0 < 4 ∧ (4 : Nat) ∣ 8 ∧
    ((parallelOffsets 8 4).length = 8 / 4 ∧
      (∀ o, o ∈ parallelOffsets 8 4 ↔ ∃ k, k < 8 / 4 ∧ o = k * 4) ∧
      parallelReadAll (fun _ => true) (preadModel 8) 8 4 = .ok 8 ∧
      (∀ (alloc : Nat → Bool) (preadFn : Nat → Nat → Int) (idx : Nat),
        idx < 8 / 4 → (alloc idx = false ∨ preadFn (idx * 4) 4 < (4 : Int)) →
        parallelReadAll alloc preadFn 8 4 = .error ())) :=
  ⟨by decide, by decide, parallelRead_exact_spec 8 4 (by decide) (by decide)⟩

/-- C10: in parallel mode with `C > 0` and `C` not dividing `S`, `readAll`
silently truncates: it issues exactly `⌊S / C⌋` reads, every issued chunk
lies inside the first `⌊S / C⌋ · C < S` bytes (the trailing remainder is
never read), and the read still reports success with `⌊S / C⌋ · C` bytes;
in particular for `S < C` it issues no reads at all and returns 0 bytes
with no error. -/
theorem parallelRead_truncation (S C : Nat) (_hC : 0 < C) (hndvd : ¬ C ∣ S) :
    (parallelOffsets S C).length = S / C ∧
    (∀ o ∈ parallelOffsets S C, o + C ≤ (S / C) * C) ∧
    (S / C) * C < S ∧
    parallelReadAll (fun _ => true) (preadModel S) S C = .ok ((S / C) * C) ∧
    (S < C → parallelOffsets S C = [] ∧
      parallelReadAll (fun _ => true) (preadModel S) S C = .ok 0) := by
  have hlt : (S / C) * C < S := by
    have hmod : S % C ≠ 0 := fun h => hndvd (Nat.dvd_of_mod_eq_zero h)
    have hdm : C * (S / C) + S % C = S := Nat.div_add_mod S C
    have hle : C * (S / C) ≤ S := Nat.mul_div_le S C
    rw [Nat.mul_comm]
    generalize C * (S / C) = m at hdm hle ⊢
    generalize S % C = r at hdm hmod
    omega
  refine ⟨by simp [parallelOffsets], ?_, hlt, parallelReadAll_model_ok S C, ?_⟩
  · intro o ho
    simp only [parallelOffsets, List.mem_map, List.mem_range] at ho
    rcases ho with ⟨k, hk, rfl⟩
    calc k * C + C = (k + 1) * C := by ring
    _ ≤ (S / C) * C := Nat.mul_le_mul_right C hk
  · intro hSC
    have h0 : S / C = 0 := Nat.div_eq_of_lt hSC
    constructor
    · simp [parallelOffsets, h0]
    · rw [parallelReadAll_model_ok, h0, Nat.zero_mul]

/-- Witness for C10 at `S = 3`, `C = 4`. -/
theorem parallelRead_truncation_witness :
    0 < 4 ∧ ¬ (4 : Nat) ∣ 3 ∧ 3 < 4 ∧
    ((parallelOffsets 3 4).length = 3 / 4 ∧
      (∀ o ∈ parallelOffsets 3 4, o + 4 ≤ (3 / 4) * 4) ∧
      (3 / 4) * 4 < 3 ∧
      parallelReadAll (fun _ => true) (preadModel 3) 3 4 = .ok ((3 / 4) * 4) ∧
      (parallelOffsets 3 4 = [] ∧
        parallelReadAll (fun _ => true) (preadModel 3) 3 4 = .ok 0)) := by
  have h := parallelRead_truncation 3 4 (by decide) (by decide)
  exact ⟨by decide, by decide, by decide,
    h.1, h.2.1, h.2.2.1, h.2.2.2.1, h.2.2.2.2 (by decide)⟩

/-- C4 (amended): every open first attempts direct I/O (`directOk = true`
yields a direct open, the fallback never tried).  In the two open sites
that have a fallback (`src/unnamed/part_000` lines 297-311 and the second
`src/main.cpp` variant lines 266-280), a rejected direct open with a
successful buffered open yields the warned fallback and the iteration
continues (not fatal), and the iteration aborts with the fatal open error
exactly when both attempts fail.  In the first `src/main.cpp` variant
(lines 110-116) there is no fallback: a rejected direct open frees the
buffer and aborts the run at once, whatever a buffered open would have
done. -/
theorem openFallback_spec :
    (∀ b, openFile true b = .direct) ∧
    openFile false true = .fallback ∧
    openFile false false = .fatal ∧
    (∀ (cfg : Config) (env : Env) (perm : List Nat) (i : Nat), cfg.N ≠ 0 →
      (engineIter cfg env perm i = .error .openFatal ↔
        env.directOk i = false ∧ env.bufferedOk i = false)) ∧
    (∀ (cfg : Config) (env : Env) (perm : List Nat) (i : Nat), cfg.N ≠ 0 →
      cfg.parallelRead = false → env.directOk i = false → env.bufferedOk i = true →
      ∃ r, engineIter cfg env perm i = .ok r ∧ r.usedFallback = true) ∧
    (∀ b, openFileV1 true b = .direct) ∧
    (∀ b, openFileV1 false b = .fatal) := by
  refine ⟨by decide, by decide, by decide, ?_, ?_, by decide, by decide⟩
  · intro cfg env perm i hN
    cases hd : env.directOk i <;> cases hb : env.bufferedOk i <;>
      simp [engineIter, hN, openFile, hd, hb, engineIterRead_ne_openFatal]
  · intro cfg env perm i hN hpar hd hb
    simp only [engineIter, hN, if_false, openFile, hd, hb, ite_false, ite_true,
      Bool.false_eq_true, if_neg hN]
    exact engineIterRead_seq_ok cfg env _ true hpar

/-- Witness for C4: a concrete fatal double failure and a concrete
non-fatal fallback iteration. -/
theorem openFallback_spec_witness :
    ((⟨3, 1, 4096, 4096, false, false⟩ : Config).N ≠ 0) ∧
    engineIter ⟨3, 1, 4096, 4096, false, false⟩
      ⟨fun _ => false, fun _ => false, fun _ => 4096⟩ [1, 2, 3] 0 = .error .openFatal ∧
    (∃ r, engineIter ⟨3, 1, 4096, 4096, false, false⟩
        ⟨fun _ => false, fun _ => true, fun _ => 4096⟩ [1, 2, 3] 0 = .ok r ∧
      r.usedFallback = true) := by
  refine ⟨by decide, ?_, ?_⟩
  · exact (openFallback_spec.2.2.2.1 ⟨3, 1, 4096, 4096, false, false⟩
      ⟨fun _ => false, fun _ => false, fun _ => 4096⟩ [1, 2, 3] 0 (by decide)).mpr ⟨rfl, rfl⟩
  · exact openFallback_spec.2.2.2.2.1 ⟨3, 1, 4096, 4096, false, false⟩
      ⟨fun _ => false, fun _ => true, fun _ => 4096⟩ [1, 2, 3] 0 (by decide) rfl rfl rfl

/-- C4 counterexample: in the first `src/main.cpp` variant (lines
110-116), a rejected `O_DIRECT` open is immediately fatal - the buffer is
freed and the run aborts with status 1 - even though a standard buffered
open would have succeeded; no fallback open is attempted and no warning
printed.  This refutes the claim, as stated over every file open, at the
concrete input (direct rejected, buffered available): the opener yields
the fatal outcome instead of the non-fatal fallback, and a 1-iteration
run whose direct open is rejected aborts instead of continuing. -/
theorem directRejected_fatal_inV1 :
    openFileV1 false true = .fatal ∧
    openFile false true = .fallback ∧
    engineRunV1 (fun _ => false) (fun _ => 4096) 1 = .error () :=
  ⟨rfl, rfl, rfl⟩

/-- C7 (code bug): with `N = 0` the permutation is empty as the claim
says, but the engine does NOT short-circuit: already at `ITER = 1` the
first iteration evaluates `file_permutation[i % N]` with `N = 0` - an
integer modulo by zero, which is undefined behavior in the source -
modelled here as the `.modByZero` crash outcome instead of a completed
run. -/
theorem nZero_modulo_crash (randJ : Nat → Nat) (env : Env) :
    filePermutation randJ 0 = [] ∧
    engineRun ⟨0, 1, 4096, 4096, false, false⟩ env (filePermutation randJ 0) =
      .error .modByZero := by
  constructor
  · rfl
  · rfl

/-- C8 (code bug): with `ITER = 0` the engine does complete immediately
with `totalBytesRead = 0`, but the average-time report is NOT guarded: the
source evaluates `duration_read_ms.count() / (double)ITER` unconditionally,
which at `ITER = 0` is an IEEE division by zero producing a non-finite
average (modelled as `none`). -/
theorem iterZero_spec (cfg : Config) (env : Env) (perm : List Nat)
    (durationMs : Nat) (hIter : cfg.ITER = 0) :
    engineRun cfg env perm = .ok [] ∧
    totalBytesRead [] = 0 ∧
    avgMsPerIter durationMs cfg.ITER = none := by
  refine ⟨?_, rfl, ?_⟩
  · rw [engineRun, hIter]
    rfl
  · rw [hIter]
    rfl

/-- Witness for C8 at a concrete configuration with `ITER = 0`. -/
theorem iterZero_spec_witness :
    ((⟨3, 0, 4096, 4096, false, false⟩ : Config).ITER = 0) ∧
    (engineRun ⟨3, 0, 4096, 4096, false, false⟩
        ⟨fun _ => true, fun _ => true, fun _ => 4096⟩ [1, 2, 3] = .ok [] ∧
      totalBytesRead [] = 0 ∧
      avgMsPerIter 5 (⟨3, 0, 4096, 4096, false, false⟩ : Config).ITER = none) :=
  ⟨rfl, iterZero_spec ⟨3, 0, 4096, 4096, false, false⟩
    ⟨fun _ => true, fun _ => true, fun _ => 4096⟩ [1, 2, 3] 5 rfl⟩

/-- C5 (amended): in the chunked sequential read loops, whatever the
syscall results, (a) any fatal outcome leaves the descriptor closed and
the read buffer freed, and (b) from any loop state with bytes still
remaining, a negative `read` result immediately produces that fatal
outcome (`close(fd); free(read_buffer); return 1;`) - it is never
ignored there. -/
theorem negativeRead_aborts_with_cleanup (readFn : Nat → Nat → Int) (C : Nat) :
    (∀ r idx acc s res,
      seqLoopSys readFn C r idx acc s = .fatal res →
      res.fdOpen = false ∧ res.bufAllocated = false) ∧
    (∀ r idx acc s, readFn idx (min (r + 1) C) < 0 →
      seqLoopSys readFn C (r + 1) idx acc s = .fatal (freeBuf (closeFd s))) := by
  constructor
  · intro r
    induction r using Nat.strong_induction_on with
    | _ r ih =>
      match r with
      | 0 =>
        intro idx acc s res h
        simp [seqLoopSys] at h
      | n + 1 =>
        intro idx acc s res h
        rw [seqLoopSys] at h
        by_cases hneg : readFn idx (min (n + 1) C) < 0
        · rw [dif_pos hneg] at h
          simp only [SeqSysResult.fatal.injEq] at h
          subst h
          simp [freeBuf, closeFd]
        · rw [dif_neg hneg] at h
          by_cases hz : (readFn idx (min (n + 1) C)).toNat = 0
          · rw [dif_pos hz] at h
            simp at h
          · rw [dif_neg hz] at h
            exact ih _ (by omega) _ _ _ _ h
  · intro r idx acc s hneg
    rw [seqLoopSys, dif_pos hneg]

/-- Witness for C5's amended theorem: a loop whose first `read` returns
`-1` aborts fatally with the descriptor closed and the buffer freed. -/
theorem negativeRead_aborts_with_cleanup_witness :
    ((fun _ _ => (-1 : Int)) 0 (min (7 + 1) 4) < 0) ∧
    seqLoopSys (fun _ _ => (-1 : Int)) 4 (7 + 1) 0 0 ⟨true, true⟩ =
      .fatal (freeBuf (closeFd ⟨true, true⟩)) ∧
    ((freeBuf (closeFd ⟨true, true⟩)).fdOpen = false ∧
      (freeBuf (closeFd ⟨true, true⟩)).bufAllocated = false) := by
  have h2 := (negativeRead_aborts_with_cleanup (fun _ _ => (-1 : Int)) 4).2
    7 0 0 ⟨true, true⟩ (by decide)
  exact ⟨by decide, h2,
    (negativeRead_aborts_with_cleanup (fun _ _ => (-1 : Int)) 4).1
      (7 + 1) 0 0 ⟨true, true⟩ _ h2⟩

/-- C5 counterexample: in the first `src/main.cpp` variant
(`ssize_t bytes_read = read(fd, read_buffer, aligned_K);
if (bytes_read > 0) { total_bytes_read += bytes_read; }`), a run whose
read syscall returns the negative value `-1` is NOT aborted: it completes
normally (`.ok`, exit status 0) and simply drops the result - refuting,
for that variant, the claim that a negative read result always aborts the
run. -/
theorem negativeRead_ignored_inV1 :
    ((-1 : Int) < 0) ∧ engineRunV1 (fun _ => true) (fun _ => -1) 1 = .ok 0 :=
  ⟨by decide, rfl⟩

/-- In the `N = 3`, `K = 4096` scenario every iteration succeeds: direct
open, one sequential read of the full 4096-byte file, close. -/
theorem engineIter_scenario (perm : List Nat) (i : Nat) :
    engineIter ⟨3, 9, 4096, 4194304, false, false⟩
      ⟨fun _ => true, fun _ => true, fun _ => 4096⟩ perm i =
      .ok ⟨perm.getD (i % 3) 0, false, 4096⟩ := by
  have hbytes : (seqRead 4096 4194304 4096).1 = 4096 := by
    rw [seqRead_bytes 4096 4194304 4096 (by norm_num)]
    simp
  simp [engineIter, engineIterRead, openFile, hbytes]

/-- When every iteration succeeds, the run collects all the iteration
results in order. -/
theorem engineRunFrom_all_ok (cfg : Config) (env : Env) (perm : List Nat)
    (f : Nat → IterResult) (hf : ∀ i, engineIter cfg env perm i = .ok (f i)) :
    ∀ k i, engineRunFrom cfg env perm i k =
      .ok ((List.range k).map (fun j => f (i + j))) := by
  intro k
  induction k with
  | zero =>
    intro i
    rfl
  | succ n ih =>
    intro i
    rw [engineRunFrom, hf i, ih (i + 1)]
    have harg : ∀ j ∈ List.range n, f (i + 1 + j) = f (i + (j + 1)) := by
      intro j _
      have e : i + 1 + j = i + (j + 1) := by omega
      rw [e]
    simp only [List.range_succ_eq_map, List.map_cons, List.map_map, Function.comp_def,
      Nat.add_zero, Nat.succ_eq_add_one, List.map_congr_left harg]

/-- The complete 9-iteration run of the scenario on an arbitrary
3-element permutation. -/
theorem engineRun_scenario (a b c : Nat) :
    engineRun ⟨3, 9, 4096, 4194304, false, false⟩
      ⟨fun _ => true, fun _ => true, fun _ => 4096⟩ [a, b, c] =
      .ok [⟨a, false, 4096⟩, ⟨b, false, 4096⟩, ⟨c, false, 4096⟩,
        ⟨a, false, 4096⟩, ⟨b, false, 4096⟩, ⟨c, false, 4096⟩,
        ⟨a, false, 4096⟩, ⟨b, false, 4096⟩, ⟨c, false, 4096⟩] := by
  rw [engineRun, engineRunFrom_all_ok _ _ _
    (fun i => ⟨[a, b, c].getD (i % 3) 0, false, 4096⟩) (engineIter_scenario [a, b, c]) 9 0]
  rfl



/-- C9: end-to-end scenario `N = 3`, `K = 4096` (already aligned),
`ITER = 9`, sequential mode, reads enabled: the engine completes all 9
iterations (so it performs exactly 9 opens, 9 `readAll`s and 9 closes -
each successful `IterResult` stands for exactly one open, one read phase
and one unconditional close), visits the files in the cyclic order of the
shuffled permutation - `perm ++ perm ++ perm`, not necessarily
`1,2,3,1,2,3,…` - so each of the 3 files exactly 3 times, and totals
`9 * 4096 = 36864` bytes. -/
theorem engine_endToEnd_N3 (perm : List Nat) (hp : List.Perm perm [1, 2, 3]) :
    ∃ rs, engineRun ⟨3, 9, 4096, 4194304, false, false⟩
        ⟨fun _ => true, fun _ => true, fun _ => 4096⟩ perm = .ok rs ∧
      rs.length = 9 ∧
      filesVisited rs = perm ++ perm ++ perm ∧
      (∀ f ∈ [1, 2, 3], (filesVisited rs).count f = 3) ∧
      totalBytesRead rs = 36864 := by
  have hl : perm.length = 3 := hp.length_eq
  obtain ⟨a, b, c, rfl⟩ := List.length_eq_three.mp hl
  refine ⟨_, engineRun_scenario a b c, ?_, ?_, ?_, ?_⟩
  · rfl
  · simp [filesVisited]
  swap
  · show ([4096, 4096, 4096, 4096, 4096, 4096, 4096, 4096, 4096] : List Nat).sum = 36864
    norm_num [List.sum_cons]
  intro f hf
  have hsplit : ([a, b, c, a, b, c, a, b, c] : List Nat) =
      [a, b, c] ++ [a, b, c] ++ [a, b, c] := rfl
  show ([a, b, c, a, b, c, a, b, c] : List Nat).count f = 3
  rw [hsplit, List.count_append, List.count_append, hp.count_eq f]
  fin_cases hf <;> decide

/-- Witness for C9 at the concrete permutation `[2, 3, 1]`. -/
theorem engine_endToEnd_N3_witness :
    List.Perm [2, 3, 1] [1, 2, 3] ∧
    (∃ rs, engineRun ⟨3, 9, 4096, 4194304, false, false⟩
        ⟨fun _ => true, fun _ => true, fun _ => 4096⟩ [2, 3, 1] = .ok rs ∧
      rs.length = 9 ∧
      filesVisited rs = [2, 3, 1] ++ [2, 3, 1] ++ [2, 3, 1] ∧
      (∀ f ∈ [1, 2, 3], (filesVisited rs).count f = 3) ∧
      totalBytesRead rs = 36864) :=
  ⟨by decide, engine_endToEnd_N3 [2, 3, 1] (by decide)⟩

end FileGames
